import Mathlib

/-!
Verification of the top-k-user-aggregation pipeline.

Shallow embedding of the Go services under
src/systems/top-k-user-aggregation/implementation/services:
the aggregator (bloom-filter variant of services/aggregator/main.go) and the
api-server (services/api-server/main.go).

Modelling conventions:
* Go maps are association lists; an update writes the first matching entry.
* The per-day Redis bloom filter (BF.ADD on key "dedup:" plus day) is a list
  of the inserted ids together with an abstract membership test
  chk : List String -> String -> Bool.  A hypothesis stating that chk has no
  false negatives (an inserted id always tests positive) captures the bloom
  filter contract; chk s i = decide (i being a member of s) is the
  false-positive-free instance.
* time.Unix(sec, 0).Format of the Go aggregator renders the timestamp in the
  local time zone of the process; this is modelled by formatDay with an
  explicit zone offset in seconds (0 for UTC).  The api-server uses
  time.Now().UTC() and is modelled with offset 0.
* Cassandra writes and Kafka offset commits are explicit state; a write
  failure is modelled by a predicate wOk on keys (the code logs the error and
  continues).  Counter values use unbounded Int; the int64 counters of the
  code cannot overflow in any scenario considered here.
-/

/-- Civil date (year, month, day) from a count of days since 1970-01-01,
the standard era-based conversion; it agrees with Go's time package date
computation for all representable dates. -/
def civilFromDays (z0 : Int) : Int × Int × Int :=
  let z := z0 + 719468
  let era := z.fdiv 146097
  let doe := z - era * 146097
  let yoe := (doe - doe.fdiv 1460 + doe.fdiv 36524 - doe.fdiv 146096).fdiv 365
  let y := yoe + era * 400
  let doy := doe - (365 * yoe + yoe.fdiv 4 - yoe.fdiv 100)
  let mp := (5 * doy + 2).fdiv 153
  let d := doy - (153 * mp + 2).fdiv 5 + 1
  let m := mp + (if mp < 10 then 3 else -9)
  (y + (if m ≤ 2 then 1 else 0), m, d)

/-- Zero-padded two-digit rendering, as in the "01"/"02" verbs of the Go
layout "2006-01-02". -/
def pad2 (n : Nat) : String :=
  if n < 10 then "0" ++ toString n else toString n

/-- Zero-padded four-digit rendering, as in the "2006" verb of the Go layout
"2006-01-02". -/
def pad4 (n : Nat) : String :=
  if n < 10 then "000" ++ toString n
  else if n < 100 then "00" ++ toString n
  else if n < 1000 then "0" ++ toString n
  else toString n

/-- Render an epoch-day count as a "2006-01-02" date string. -/
def formatEpochDay (z : Int) : String :=
  let c := civilFromDays z
  let y := c.1
  let ys := if y < 0 then "-" ++ pad4 (-y).toNat else pad4 y.toNat
  ys ++ "-" ++ pad2 c.2.1.toNat ++ "-" ++ pad2 c.2.2.toNat

/-- The day string produced by time.Unix(t, 0).Format("2006-01-02") in a
fixed time zone of offset tz seconds east of UTC (tz = 0 is UTC). -/
def formatDay (tz t : Int) : String :=
  formatEpochDay ((t + tz).fdiv 86400)

/-- ListenEvent of aggregator/main.go (the Kafka message payload). -/
structure ListenEvent where
  eventID : String
  userID : String
  songID : String
  provider : String
  listenedAt : Int
  deriving DecidableEq

/-- AggregateKey of aggregator/main.go: the key of the in-memory counts. -/
structure AggregateKey where
  userID : String
  day : String
  songID : String
  deriving DecidableEq

/-- First-match association-list lookup, modelling a Go map read. -/
def aget {κ β : Type} [DecidableEq κ] : List (κ × β) → κ → Option β
  | [], _ => none
  | (k', v) :: m, k => if k' = k then some v else aget m k

/-- Association-list update: overwrite the first matching entry, append when
absent; models a Go map write. -/
def aput {κ β : Type} [DecidableEq κ] : List (κ × β) → κ → β → List (κ × β)
  | [], k, v => [(k, v)]
  | (k', v') :: m, k, v => if k' = k then (k', v) :: m else (k', v') :: aput m k v

/-- Counter read with Go's zero default. -/
def agetI {κ : Type} [DecidableEq κ] (m : List (κ × Int)) (k : κ) : Int :=
  (aget m k).getD 0

/-- Counter bump, modelling the Go statement m[k] += d (and m[k]++ at d = 1). -/
def aadd {κ : Type} [DecidableEq κ] (m : List (κ × Int)) (k : κ) (d : Int) :
    List (κ × Int) :=
  aput m k (agetI m k + d)

/-- Sum of the values stored under key k (counts every entry, so it reads
through duplicate keys; on maps built by aadd it coincides with agetI). -/
def sumD {κ : Type} [DecidableEq κ] (m : List (κ × Int)) (k : κ) : Int :=
  ((m.filter (fun kv => decide (kv.1 = k))).map (fun kv => kv.2)).sum

/-- Aggregator state (Aggregator struct of aggregator/main.go plus the
external stores it drives: the Redis bloom filters, the Cassandra counter
table, and the committed Kafka offset). -/
structure AggState where
  counts : List (AggregateKey × Int)
  dedup : List (String × List String)
  store : List (AggregateKey × Int)
  lastMsg : Option Int
  hasMsg : Bool
  dedupCount : Int
  committed : Option Int
  deriving DecidableEq

/-- The fresh aggregator state: empty accumulator, no bloom filters, empty
counter store, nothing consumed. -/
def initState : AggState :=
  { counts := [], dedup := [], store := [], lastMsg := none, hasMsg := false,
    dedupCount := 0, committed := none }

/-- bloomKey of aggregator/main.go: Redis key of the bloom filter of a day. -/
def bloomKey (day : String) : String :=
  "dedup:" ++ day

/-- The bloom filter contents for a day (empty when the filter does not
exist yet, matching BF.ADD creating it on demand). -/
def bloomOf (st : AggState) (day : String) : List String :=
  (aget st.dedup (bloomKey day)).getD []

/-- checkAndAddToBloom of aggregator/main.go: BF.ADD returns whether the id
was possibly already present (per the membership test chk), and the id is
inserted unconditionally. -/
def checkAndAddToBloom (chk : List String → String → Bool)
    (dedup : List (String × List String)) (day eventID : String) :
    Bool × List (String × List String) :=
  let key := bloomKey day
  let bloom := (aget dedup key).getD []
  (chk bloom eventID, aput dedup key (eventID :: bloom))

/-- The day bucket the aggregator derives for an event: the event's own
listened_at timestamp rendered as a calendar day in the process time zone
(time.Unix(event.ListenedAt, 0).Format("2006-01-02")). -/
def eventDay (tz : Int) (e : ListenEvent) : String :=
  formatDay tz e.listenedAt

/-- The accumulator key derived for an event in accumulate. -/
def eventKey (tz : Int) (e : ListenEvent) : AggregateKey :=
  { userID := e.userID, day := eventDay tz e, songID := e.songID }

/-- accumulate of aggregator/main.go (bloom variant, lines 433-465): dedup
check against the day's shared bloom filter, then either skip (duplicate) or
bump the in-memory count; either way the message becomes the flush
watermark. -/
def accumulate (tz : Int) (chk : List String → String → Bool)
    (st : AggState) (e : ListenEvent) (off : Int) : AggState :=
  let day := eventDay tz e
  let r := checkAndAddToBloom chk st.dedup day e.eventID
  if r.1 then
    { st with dedup := r.2, dedupCount := st.dedupCount + 1,
              lastMsg := some off, hasMsg := true }
  else
    { st with dedup := r.2,
              counts := aadd st.counts (eventKey tz e) 1,
              lastMsg := some off, hasMsg := true }

/-- The per-key Cassandra writes of flush: each drained delta is applied as
an atomic increment; a failed write (wOk k = false) is logged and skipped,
the loop continues with the other updates. -/
def applyDeltas (wOk : AggregateKey → Bool)
    (store counts : List (AggregateKey × Int)) : List (AggregateKey × Int) :=
  counts.foldl (fun s kv => if wOk kv.1 then aadd s kv.1 kv.2 else s) store

/-- flush of aggregator/main.go (bloom variant, lines 467-515): guard, swap
and reset the accumulator, write every drained delta (failures logged,
skipped), then commit the watermark offset whenever a message was seen. -/
def flush (wOk : AggregateKey → Bool) (st : AggState) : AggState :=
  if st.counts.isEmpty && !st.hasMsg then st
  else
    { st with counts := [], hasMsg := false, dedupCount := 0,
              store := applyDeltas wOk st.store st.counts,
              committed := if st.hasMsg then st.lastMsg else st.committed }

/-- A fetched Kafka message: either an event payload or one whose value does
not unmarshal. -/
inductive KafkaMsg where
  | malformed (off : Int)
  | event (e : ListenEvent) (off : Int)
  deriving DecidableEq

/-- One iteration of the message loop of main (lines 352-371): an
unmarshaling error is logged and the message committed immediately;
otherwise the event is accumulated. -/
def processMessage (tz : Int) (chk : List String → String → Bool)
    (st : AggState) : KafkaMsg → AggState
  | .malformed off => { st with committed := some off }
  | .event e off => accumulate tz chk st e off

/-- Consuming a batch of event messages in order (offsets are irrelevant to
the counting claims and fixed at 0). -/
def processEvents (tz : Int) (chk : List String → String → Bool)
    (st : AggState) (events : List ListenEvent) : AggState :=
  events.foldl (fun s e => accumulate tz chk s e 0) st

/-- The event_ids the batch delivers for a fixed aggregate key. -/
def idsFor (tz : Int) (events : List ListenEvent) (k : AggregateKey) :
    List String :=
  (events.filter (fun e => decide (eventKey tz e = k))).map (fun e => e.eventID)

/-- Ghost count of the genuinely new ids a batch contributes to key k given
the ids already seen by the day's bloom filter: an event counts when it has
key k and its id is unseen; any event of the same day inserts its id. -/
def newIds (tz : Int) (k : AggregateKey) :
    List ListenEvent → List String → Nat
  | [], _ => 0
  | e :: rest, seen =>
      (if eventKey tz e = k ∧ e.eventID ∉ seen then 1 else 0)
      + newIds tz k rest
          (if eventDay tz e = k.day then e.eventID :: seen else seen)

/-- All values of an accumulator are nonnegative (an invariant of every
reachable aggregator state). -/
def countsNonneg (m : List (AggregateKey × Int)) : Prop :=
  ∀ kv ∈ m, 0 ≤ kv.2

instance : DecidablePred countsNonneg := fun m =>
  inferInstanceAs (Decidable (∀ kv ∈ m, 0 ≤ kv.2))

/-- A single externally visible step of the aggregator process: consuming
one fetched message, or one run of the periodic or shutdown flush. -/
inductive AggStep (tz : Int) (chk : List String → String → Bool) :
    AggState → AggState → Prop
  | msg (st : AggState) (m : KafkaMsg) : AggStep tz chk st (processMessage tz chk st m)
  | flushStep (st : AggState) (wOk : AggregateKey → Bool) : AggStep tz chk st (flush wOk st)

/-! ### api-server (services/api-server/main.go) -/

/-- TopKResult of api-server/main.go: one song of the response. -/
structure TopKResult where
  songID : String
  listenCount : Int
  rank : Nat
  deriving DecidableEq

/-- TopKResponse of api-server/main.go: the JSON body of the endpoint. -/
structure TopKResponse where
  userID : String
  days : Nat
  k : Nat
  results : List TopKResult
  cached : Bool
  deriving DecidableEq

/-- The N day strings computeTopK queries: today's UTC day (as an epoch-day
count) and the days AddDate(0, 0, -i) walks back to, each rendered by
Format("2006-01-02"). -/
def dayListFor (todayZ : Int) (days : Nat) : List String :=
  (List.range days).map (fun i => formatEpochDay (todayZ - i))

/-- The rows the per-day Cassandra SELECT returns for one (user, day)
partition of user_daily_topk: the (song_id, listen_count) pairs. -/
def rowsFor (store : List (AggregateKey × Int)) (u d : String) :
    List (String × Int) :=
  (store.filter (fun kv => decide (kv.1.userID = u ∧ kv.1.day = d))).map
    (fun kv => (kv.1.songID, kv.2))

/-- The songCounts map computeTopK builds: for each queried day, every
returned row bumps songCounts at its song id by its count. -/
def sumCounts (store : List (AggregateKey × Int)) (u : String)
    (dl : List String) : List (String × Int) :=
  dl.foldl (fun m d => (rowsFor store u d).foldl (fun m r => aadd m r.1 r.2) m) []

/-- The comparison sort.Slice is given in computeTopK: entry a precedes
entry b when its count is at least b's (the Go less function is a strict
greater-than; any run of the unstable sort yields some arrangement that is
sorted for this reflexive relation). -/
def cntGe (a b : String × Int) : Prop :=
  b.2 ≤ a.2

instance : DecidableRel cntGe := fun a b =>
  inferInstanceAs (Decidable (b.2 ≤ a.2))

instance : IsTotal (String × Int) cntGe :=
  ⟨fun a b => le_total b.2 a.2⟩

instance : IsTrans (String × Int) cntGe :=
  ⟨fun _ _ _ h1 h2 => le_trans h2 h1⟩

/-- The response-building loop of computeTopK: rank is the position in the
truncated sorted slice, starting at n (the code starts at 1). -/
def rankFrom : Nat → List (String × Int) → List TopKResult
  | _, [] => []
  | n, sc :: l => { songID := sc.1, listenCount := sc.2, rank := n } :: rankFrom (n + 1) l

/-- computeTopK of api-server/main.go, lines 161-220, from an explicit
enumeration of the songCounts map: Go map iteration order is unspecified, so
theorems quantify over every enumeration (every permutation of sumCounts).
The slice is sorted descending by count, truncated to k, and ranked from
1. -/
def computeTopKFrom (entries : List (String × Int)) (k : Nat) : List TopKResult :=
  rankFrom 1 ((List.insertionSort cntGe entries).take k)

/-- computeTopK at one concrete enumeration (the first-seen order of
sumCounts); serveTopK uses this deterministic instance. -/
def computeTopK (store : List (AggregateKey × Int)) (u : String)
    (todayZ : Int) (days k : Nat) : List TopKResult :=
  computeTopKFrom (sumCounts store u (dayListFor todayZ days)) k

/-- Cache key of topKHandler: fmt.Sprintf("topk:%s:%d:%d", userID, days, k). -/
def cacheKey (u : String) (days k : Nat) : String :=
  "topk:" ++ u ++ ":" ++ toString days ++ ":" ++ toString k

/-- What topKHandler hands back for one request: the JSON body written to
the client and the X-Cache header (true for HIT, false for MISS). -/
structure ServeOut where
  body : TopKResponse
  xcacheHit : Bool
  deriving DecidableEq

/-- The cache path of topKHandler (lines 118-158): on a Redis hit the stored
bytes are replayed verbatim as the body with X-Cache HIT; on a miss the
response is computed with Cached = false, stored in the cache, and written
with X-Cache MISS.  A cache entry stands for the serialized response it
holds; TTL expiry is modelled by the entry being absent. -/
def serveTopK (store : List (AggregateKey × Int))
    (cache : List (String × TopKResponse)) (u : String) (todayZ : Int)
    (days k : Nat) : ServeOut × List (String × TopKResponse) :=
  let key := cacheKey u days k
  match aget cache key with
  | some body => ({ body := body, xcacheHit := true }, cache)
  | none =>
      let results := computeTopK store u todayZ days k
      let resp : TopKResponse :=
        { userID := u, days := days, k := k, results := results, cached := false }
      ({ body := resp, xcacheHit := false }, aput cache key resp)

/-- Character-list prefix test (Go's strings.HasPrefix; byte-wise in Go,
character-wise here — identical on the ASCII inputs these handlers see). -/
def charsPre : List Char → List Char → Bool
  | [], _ => true
  | _ :: _, [] => false
  | c :: cs, d :: ds => c == d && charsPre cs ds

/-- String prefix test over the character lists. -/
def strStarts (s pre : String) : Bool :=
  charsPre pre.data s.data

/-- Drop the first n characters (Go slices the first n bytes; identical on
ASCII). -/
def strDrop (s : String) (n : Nat) : String :=
  String.mk (s.data.drop n)

/-- Split on every occurrence of a separator character, keeping empty
fields, as strings.Split does for a one-character separator. -/
def splitCharAux (sep : Char) : List Char → List Char → List String
  | [], acc => [String.mk acc.reverse]
  | c :: cs, acc =>
      if c == sep then String.mk acc.reverse :: splitCharAux sep cs []
      else splitCharAux sep cs (c :: acc)

/-- strings.Split of a string on a one-character separator. -/
def splitChar (s : String) (sep : Char) : List String :=
  splitCharAux sep s.data []

/-- Digit-string value: all characters must be ASCII digits and there must
be at least one, as in strconv.Atoi after the sign. -/
def decVal : List Char → Nat → Option Nat
  | [], acc => some acc
  | c :: cs, acc => if c.isDigit then decVal cs (acc * 10 + (c.toNat - 48)) else none

/-- Parse a nonempty all-digit string. -/
def parseDigits (s : String) : Option Nat :=
  if s.isEmpty then none else decVal s.data 0

/-- Largest int64, the overflow bound of strconv.Atoi. -/
def int64Max : Int := 9223372036854775807

/-- Smallest int64. -/
def int64Min : Int := -9223372036854775808

/-- strconv.Atoi: optional sign, decimal digits, error (none) on empty
input, stray characters, or 64-bit overflow. -/
def goAtoi (s : String) : Option Int :=
  if s = "" then none
  else
    let neg := strStarts s "-"
    let digits := if strStarts s "-" || strStarts s "+" then strDrop s 1 else s
    match parseDigits digits with
    | none => none
    | some n =>
        let v : Int := if neg then -(n : Int) else (n : Int)
        if v < int64Min ∨ int64Max < v then none else some v

/-- getQueryInt of api-server/main.go (lines 222-232): an absent parameter
(Go's Query().Get returns "") or any Atoi error silently falls back to the
default. -/
def getQueryInt (val : String) (defaultVal : Int) : Int :=
  if val = "" then defaultVal
  else
    match goAtoi val with
    | none => defaultVal
    | some i => i

/-- Outcome of the parameter handling of topKHandler. -/
inductive TopKOutcome where
  | badRequest (msg : String)
  | ok (days k : Int)
  deriving DecidableEq

/-- The query-parameter validation of topKHandler (lines 105-116): parse
days and k with defaults 7 and 10, reject out-of-range values with the 400
messages of the code. -/
def validateParams (daysVal kVal : String) : TopKOutcome :=
  let days := getQueryInt daysVal 7
  let k := getQueryInt kVal 10
  if days < 1 ∨ 30 < days then .badRequest "days must be 1-30"
  else if k < 1 ∨ 100 < k then .badRequest "k must be 1-100"
  else .ok days k

/-- strings.TrimPrefix. -/
def dropPre (s pre : String) : String :=
  if strStarts s pre then strDrop s pre.length else s

/-- The path parsing of topKHandler (lines 96-103): trim "/users/", split on
"/", require exactly two parts with the second equal to "topk"; whatever is
left in the first part, including the empty string, becomes the user id. -/
def parsePath (path : String) : Option String :=
  let parts := splitChar (dropPre path "/users/") '/'
  match parts with
  | [a, b] => if b = "topk" then some a else none
  | _ => none

/-! ### Concrete inputs used by witnesses and counterexamples -/

/-- The exact bloom membership test: present means inserted (no false
positives, no false negatives). -/
def chkEx : List String → String → Bool :=
  fun s i => decide (i ∈ s)

/-- An event on 2026-01-01 UTC (timestamp 1767225700). -/
def evA : ListenEvent :=
  { eventID := "e1", userID := "u1", songID := "s1", provider := "spotify",
    listenedAt := 1767225700 }

/-- A second event on the same UTC day. -/
def evB : ListenEvent :=
  { eventID := "e2", userID := "u1", songID := "s1", provider := "spotify",
    listenedAt := 1767225800 }

/-- A batch containing a duplicate delivery of evA. -/
def exEvents : List ListenEvent :=
  [evA, evB, evA]

/-- The aggregate key of evA and evB under UTC bucketing. -/
def exKey : AggregateKey :=
  { userID := "u1", day := "2026-01-01", songID := "s1" }

/-- An event at the epoch instant (1970-01-01 00:00:00 UTC). -/
def evEpoch : ListenEvent :=
  { eventID := "e0", userID := "u1", songID := "s1", provider := "spotify",
    listenedAt := 0 }

/-- An aggregator state about to flush one pending delta, with the last
fetched message at offset 7 not yet committed. -/
def exFailState : AggState :=
  { counts := [(exKey, 3)], dedup := [], store := [], lastMsg := some 7,
    hasMsg := true, dedupCount := 0, committed := some 2 }

/-- A post-flush aggregator state: both ids of exEvents are already recorded
in the day's dedup bloom filter and their delta is persisted (the crash
happened after the Cassandra write, before the offset commit). -/
def exReplayState : AggState :=
  { counts := [], dedup := [(bloomKey "2026-01-01", ["e1", "e2"])],
    store := [(exKey, 2)], lastMsg := some 5, hasMsg := false,
    dedupCount := 0, committed := none }

/-- A state with one pending in-memory delta and a persisted count, used for
the monotonicity and malformed-message witnesses. -/
def exMonState : AggState :=
  { counts := [(exKey, 2)], dedup := [], store := [(exKey, 5)],
    lastMsg := some 9, hasMsg := true, dedupCount := 0, committed := some 4 }

/-- A counter-store with two songs of user u1 tied at count 1 on
2026-01-01 (epoch day 20454). -/
def exStore : List (AggregateKey × Int) :=
  [({ userID := "u1", day := "2026-01-01", songID := "b" }, 1),
   ({ userID := "u1", day := "2026-01-01", songID := "a" }, 1)]

/-- A counter-store with distinct counts (a: 7 over two days, b: 3). -/
def exStore2 : List (AggregateKey × Int) :=
  [({ userID := "u1", day := "2026-01-01", songID := "a" }, 5),
   ({ userID := "u1", day := "2026-01-01", songID := "b" }, 3),
   ({ userID := "u1", day := "2025-12-31", songID := "a" }, 2)]

/-! ### Association-list lemmas -/

theorem aget_aput_self {κ β : Type} [DecidableEq κ] :
    ∀ (m : List (κ × β)) (k : κ) (v : β), aget (aput m k v) k = some v
  | [], k, v => by simp [aput, aget]
  | (k', v') :: m, k, v => by
      by_cases h : k' = k
      · simp [aput, aget, h]
      · simp [aput, aget, h, aget_aput_self m k v]

theorem aget_aput_ne {κ β : Type} [DecidableEq κ] :
    ∀ (m : List (κ × β)) (k k' : κ) (v : β), k' ≠ k →
      aget (aput m k v) k' = aget m k'
  | [], k, k', v, h => by
      have hne : ¬(k = k') := fun hh => h hh.symm
      simp [aput, aget, hne]
  | (k0, v0) :: m, k, k', v, h => by
      by_cases h0 : k0 = k
      · subst h0
        have hne : ¬(k0 = k') := fun hh => h hh.symm
        simp [aput, aget, hne]
      · by_cases h1 : k0 = k'
        · simp [aput, aget, h0, h1, h]
        · simp [aput, aget, h0, h1, aget_aput_ne m k k' v h]

theorem agetI_cons {κ : Type} [DecidableEq κ] (k' : κ) (v : Int)
    (m : List (κ × Int)) (k : κ) :
    agetI ((k', v) :: m) k = if k' = k then v else agetI m k := by
  by_cases h : k' = k <;> simp [agetI, aget, h]

theorem sumD_cons {κ : Type} [DecidableEq κ] (k' : κ) (v : Int)
    (m : List (κ × Int)) (k : κ) :
    sumD ((k', v) :: m) k = (if k' = k then v else 0) + sumD m k := by
  by_cases h : k' = k <;> simp [sumD, List.filter_cons, h]

theorem sumD_nil {κ : Type} [DecidableEq κ] (k : κ) : sumD ([] : List (κ × Int)) k = 0 := by
  simp [sumD]

theorem agetI_aadd_self {κ : Type} [DecidableEq κ] (m : List (κ × Int))
    (k : κ) (d : Int) : agetI (aadd m k d) k = agetI m k + d := by
  simp [aadd, agetI, aget_aput_self]

theorem agetI_aadd_ne {κ : Type} [DecidableEq κ] (m : List (κ × Int))
    (k k' : κ) (d : Int) (h : k' ≠ k) : agetI (aadd m k d) k' = agetI m k' := by
  simp [aadd, agetI, aget_aput_ne m k k' _ h]

theorem sumD_aadd_self {κ : Type} [DecidableEq κ] :
    ∀ (m : List (κ × Int)) (k : κ) (d : Int), sumD (aadd m k d) k = sumD m k + d
  | [], k, d => by
      simp [aadd, aput, sumD_cons, sumD_nil, agetI, aget]
  | (k0, v0) :: m, k, d => by
      by_cases h : k0 = k
      · subst h
        have hh : aadd ((k0, v0) :: m) k0 d = (k0, v0 + d) :: m := by
          simp [aadd, aput, agetI_cons]
        rw [hh, sumD_cons, sumD_cons]
        simp
        omega
      · have hh : aadd ((k0, v0) :: m) k d = (k0, v0) :: aadd m k d := by
          simp [aadd, aput, agetI_cons, h]
        rw [hh, sumD_cons, sumD_cons, sumD_aadd_self m k d]
        omega

theorem sumD_aadd_ne {κ : Type} [DecidableEq κ] :
    ∀ (m : List (κ × Int)) (k k' : κ) (d : Int), k' ≠ k →
      sumD (aadd m k d) k' = sumD m k'
  | [], k, k', d, h => by
      have hne : ¬(k = k') := fun hh => h hh.symm
      simp [aadd, aput, sumD_cons, sumD_nil, hne, agetI, aget]
  | (k0, v0) :: m, k, k', d, h => by
      by_cases h0 : k0 = k
      · subst h0
        have hh : aadd ((k0, v0) :: m) k0 d = (k0, v0 + d) :: m := by
          simp [aadd, aput, agetI_cons]
        have hne : ¬(k0 = k') := fun hh => h hh.symm
        rw [hh, sumD_cons, sumD_cons]
        simp [hne]
      · have hh : aadd ((k0, v0) :: m) k d = (k0, v0) :: aadd m k d := by
          simp [aadd, aput, agetI_cons, h0]
        rw [hh, sumD_cons, sumD_cons, sumD_aadd_ne m k k' d h]

theorem mem_keys_aput {κ β : Type} [DecidableEq κ] :
    ∀ (m : List (κ × β)) (k : κ) (v : β) (a : κ),
      a ∈ (aput m k v).map Prod.fst ↔ a ∈ m.map Prod.fst ∨ a = k
  | [], k, v, a => by simp [aput, eq_comm]
  | (k0, v0) :: m, k, v, a => by
      by_cases h : k0 = k
      · subst h
        simp [aput]
        tauto
      · simp [aput, h, mem_keys_aput m k v a]
        tauto

theorem nodupKeys_aput {κ β : Type} [DecidableEq κ] :
    ∀ (m : List (κ × β)) (k : κ) (v : β),
      (m.map Prod.fst).Nodup → ((aput m k v).map Prod.fst).Nodup
  | [], k, v, _ => by simp [aput]
  | (k0, v0) :: m, k, v, h => by
      rw [List.map_cons, List.nodup_cons] at h
      by_cases h0 : k0 = k
      · subst h0
        have hh : aput ((k0, v0) :: m) k0 v = (k0, v) :: m := by simp [aput]
        rw [hh, List.map_cons, List.nodup_cons]
        exact h
      · have hrec := nodupKeys_aput m k v h.2
        have hh : aput ((k0, v0) :: m) k v = (k0, v0) :: aput m k v := by
          simp [aput, h0]
        rw [hh, List.map_cons, List.nodup_cons]
        refine ⟨?_, hrec⟩
        intro hmem
        rcases (mem_keys_aput m k v k0).mp hmem with hm | he
        · exact h.1 hm
        · exact h0 he

theorem nodupKeys_aadd {κ : Type} [DecidableEq κ] (m : List (κ × Int))
    (k : κ) (d : Int) (h : (m.map Prod.fst).Nodup) :
    ((aadd m k d).map Prod.fst).Nodup :=
  nodupKeys_aput m k _ h

theorem aget_of_mem_nodup {κ β : Type} [DecidableEq κ] :
    ∀ (m : List (κ × β)) (k : κ) (v : β),
      (m.map Prod.fst).Nodup → (k, v) ∈ m → aget m k = some v
  | [], _, _, _, hm => by simp at hm
  | (k0, v0) :: m, k, v, hnd, hm => by
      rw [List.map_cons, List.nodup_cons] at hnd
      rcases List.mem_cons.mp hm with h | h
      · injection h with h1 h2
        subst h1
        subst h2
        simp [aget]
      · have hne : k0 ≠ k := by
          intro he
          subst he
          exact hnd.1 (List.mem_map.mpr ⟨(k0, v), h, rfl⟩)
        simp [aget, hne, aget_of_mem_nodup m k v hnd.2 h]

theorem agetI_of_mem_nodup {κ : Type} [DecidableEq κ] (m : List (κ × Int))
    (k : κ) (v : Int) (hnd : (m.map Prod.fst).Nodup) (hm : (k, v) ∈ m) :
    agetI m k = v := by
  simp [agetI, aget_of_mem_nodup m k v hnd hm]

/-! ### Aggregator step lemmas -/

theorem bloomKey_inj (d1 d2 : String) (h : bloomKey d1 = bloomKey d2) :
    d1 = d2 := by
  have hd : (bloomKey d1).data = (bloomKey d2).data := by rw [h]
  simp only [bloomKey, String.data_append] at hd
  exact String.ext (List.append_cancel_left hd)

theorem accumulate_store (tz : Int) (chk : List String → String → Bool)
    (st : AggState) (e : ListenEvent) (off : Int) :
    (accumulate tz chk st e off).store = st.store := by
  unfold accumulate
  by_cases h : (checkAndAddToBloom chk st.dedup (eventDay tz e) e.eventID).1 <;>
    simp [h]

theorem accumulate_counts (tz : Int) (chk : List String → String → Bool)
    (st : AggState) (e : ListenEvent) (off : Int) :
    (accumulate tz chk st e off).counts =
      if chk (bloomOf st (eventDay tz e)) e.eventID then st.counts
      else aadd st.counts (eventKey tz e) 1 := by
  unfold accumulate checkAndAddToBloom
  by_cases h : chk (bloomOf st (eventDay tz e)) e.eventID <;>
    simp [bloomOf, h] at * <;> simp [h]

theorem accumulate_dedup (tz : Int) (chk : List String → String → Bool)
    (st : AggState) (e : ListenEvent) (off : Int) :
    (accumulate tz chk st e off).dedup =
      aput st.dedup (bloomKey (eventDay tz e))
        (e.eventID :: bloomOf st (eventDay tz e)) := by
  unfold accumulate checkAndAddToBloom
  by_cases h : chk (bloomOf st (eventDay tz e)) e.eventID <;>
    simp [bloomOf, h] at * <;> simp [h]

theorem accumulate_bloomOf (tz : Int) (chk : List String → String → Bool)
    (st : AggState) (e : ListenEvent) (off : Int) (d : String) :
    bloomOf (accumulate tz chk st e off) d =
      if d = eventDay tz e then e.eventID :: bloomOf st d else bloomOf st d := by
  by_cases h : d = eventDay tz e
  · subst h
    simp [bloomOf, accumulate_dedup, aget_aput_self]
  · have hk : bloomKey d ≠ bloomKey (eventDay tz e) := fun hh => h (bloomKey_inj _ _ hh)
    simp [bloomOf, accumulate_dedup, aget_aput_ne _ _ _ _ hk, h]

theorem processEvents_nil (tz : Int) (chk : List String → String → Bool)
    (st : AggState) : processEvents tz chk st [] = st := rfl

theorem processEvents_cons (tz : Int) (chk : List String → String → Bool)
    (st : AggState) (e : ListenEvent) (es : List ListenEvent) :
    processEvents tz chk st (e :: es) =
      processEvents tz chk (accumulate tz chk st e 0) es := rfl

theorem processEvents_store (tz : Int) (chk : List String → String → Bool) :
    ∀ (es : List ListenEvent) (st : AggState),
      (processEvents tz chk st es).store = st.store
  | [], st => rfl
  | e :: es, st => by
      rw [processEvents_cons, processEvents_store tz chk es, accumulate_store]

theorem applyDeltas_nil (wOk : AggregateKey → Bool)
    (store : List (AggregateKey × Int)) : applyDeltas wOk store [] = store := rfl

theorem agetI_applyDeltas_allOk :
    ∀ (counts store : List (AggregateKey × Int)) (k : AggregateKey),
      agetI (applyDeltas (fun _ => true) store counts) k =
        agetI store k + sumD counts k
  | [], store, k => by simp [applyDeltas, sumD_nil]
  | kv :: counts, store, k => by
      have hh : applyDeltas (fun _ => true) store (kv :: counts) =
          applyDeltas (fun _ => true) (aadd store kv.1 kv.2) counts := by
        simp [applyDeltas]
      rw [hh, agetI_applyDeltas_allOk counts _ k, sumD_cons]
      by_cases h : kv.1 = k
      · subst h
        rw [agetI_aadd_self]
        simp
        omega
      · rw [agetI_aadd_ne store kv.1 k kv.2 (fun hh2 => h hh2.symm)]
        simp [h]

theorem agetI_applyDeltas_ge (wOk : AggregateKey → Bool) :
    ∀ (counts store : List (AggregateKey × Int)) (k : AggregateKey),
      (∀ kv ∈ counts, 0 ≤ kv.2) →
      agetI store k ≤ agetI (applyDeltas wOk store counts) k
  | [], store, k, _ => le_refl _
  | kv :: counts, store, k, hnn => by
      have h0 : 0 ≤ kv.2 := hnn kv (List.mem_cons_self kv counts)
      have hrest : ∀ kv2 ∈ counts, 0 ≤ kv2.2 :=
        fun kv2 hm => hnn kv2 (List.mem_cons_of_mem kv hm)
      by_cases h : wOk kv.1
      · have hh : applyDeltas wOk store (kv :: counts) =
            applyDeltas wOk (aadd store kv.1 kv.2) counts := by
          simp [applyDeltas, h]
        rw [hh]
        refine le_trans ?_ (agetI_applyDeltas_ge wOk counts _ k hrest)
        by_cases hk : kv.1 = k
        · subst hk
          rw [agetI_aadd_self]
          exact le_add_of_nonneg_right h0
        · rw [agetI_aadd_ne store kv.1 k kv.2 (fun hh2 => hk hh2.symm)]
      · have hh : applyDeltas wOk store (kv :: counts) =
            applyDeltas wOk store counts := by
          simp [applyDeltas, h]
        rw [hh]
        exact agetI_applyDeltas_ge wOk counts store k hrest

theorem flush_store_allOk (st : AggState) (k : AggregateKey) :
    agetI (flush (fun _ => true) st).store k = agetI st.store k + sumD st.counts k := by
  unfold flush
  split
  · next hg =>
      have hc : st.counts = [] :=
        List.isEmpty_iff.mp (Bool.and_eq_true_iff.mp hg).1
      rw [hc, sumD_nil]
      omega
  · simp [agetI_applyDeltas_allOk]

theorem flush_store_of_counts_nil (wOk : AggregateKey → Bool) (st : AggState)
    (h : st.counts = []) : (flush wOk st).store = st.store := by
  unfold flush
  split
  · rfl
  · simp [h, applyDeltas_nil]

/-! ### Dedup counting lemmas (claims C1, C3) -/

theorem eventKey_day (tz : Int) (e : ListenEvent) :
    (eventKey tz e).day = eventDay tz e := rfl

theorem idsFor_cons (tz : Int) (e : ListenEvent) (es : List ListenEvent)
    (k : AggregateKey) :
    idsFor tz (e :: es) k =
      if eventKey tz e = k then e.eventID :: idsFor tz es k else idsFor tz es k := by
  by_cases h : eventKey tz e = k <;> simp [idsFor, List.filter_cons, h]

theorem newIds_cons (tz : Int) (k : AggregateKey) (e : ListenEvent)
    (es : List ListenEvent) (seen : List String) :
    newIds tz k (e :: es) seen =
      (if eventKey tz e = k ∧ e.eventID ∉ seen then 1 else 0)
      + newIds tz k es
          (if eventDay tz e = k.day then e.eventID :: seen else seen) := rfl

theorem card_insert_eq_card_erase_succ {α : Type} [DecidableEq α]
    (s : Finset α) (a : α) : (insert a s).card = (s.erase a).card + 1 := by
  by_cases h : a ∈ s
  · rw [Finset.card_insert_of_mem h, (Finset.card_erase_add_one h).symm]
  · rw [Finset.card_insert_of_not_mem h, Finset.erase_eq_of_not_mem h]

theorem sumD_processEvents_le (tz : Int) (chk : List String → String → Bool)
    (hnfn : ∀ (s : List String) (i : String), i ∈ s → chk s i = true)
    (k : AggregateKey) :
    ∀ (events : List ListenEvent) (st : AggState),
      sumD (processEvents tz chk st events).counts k ≤
        sumD st.counts k + (newIds tz k events (bloomOf st k.day) : Int)
  | [], st => by simp [processEvents_nil, newIds]
  | e :: es, st => by
      rw [processEvents_cons]
      refine le_trans (sumD_processEvents_le tz chk hnfn k es _) ?_
      rw [newIds_cons, accumulate_counts, accumulate_bloomOf]
      by_cases hk : eventKey tz e = k
      · have hd : eventDay tz e = k.day := by rw [← hk]; rfl
        rw [if_pos hd.symm, if_pos hd]
        by_cases hchk : chk (bloomOf st (eventDay tz e)) e.eventID
        · rw [if_pos hchk]
          have hn : (0 : Int) ≤ (if eventKey tz e = k ∧ e.eventID ∉ bloomOf st k.day then 1 else 0 : Nat) := by positivity
          push_cast
          omega
        · rw [if_neg hchk]
          have hi : e.eventID ∉ bloomOf st k.day := by
            intro hmem
            exact hchk (hnfn _ _ (hd ▸ hmem))
          rw [if_pos ⟨hk, hi⟩, hk, sumD_aadd_self]
          push_cast
          omega
      · have hkk : k ≠ eventKey tz e := fun hh => hk hh.symm
        have hif0 : (if eventKey tz e = k ∧ e.eventID ∉ bloomOf st k.day then 1 else 0) = 0 := by
          simp [hk]
        rw [hif0]
        have hcounts : sumD
            (if chk (bloomOf st (eventDay tz e)) e.eventID then st.counts
             else aadd st.counts (eventKey tz e) 1) k = sumD st.counts k := by
          by_cases hchk : chk (bloomOf st (eventDay tz e)) e.eventID
          · rw [if_pos hchk]
          · rw [if_neg hchk, sumD_aadd_ne st.counts (eventKey tz e) k 1 hkk]
        rw [hcounts]
        by_cases hd : eventDay tz e = k.day
        · rw [if_pos hd.symm, if_pos hd]
          simp
        · rw [if_neg (fun hh => hd hh.symm), if_neg hd]
          simp

theorem sumD_processEvents_exact (tz : Int) (chk : List String → String → Bool)
    (hex : ∀ (s : List String) (i : String), chk s i = decide (i ∈ s))
    (k : AggregateKey) :
    ∀ (events : List ListenEvent) (st : AggState),
      sumD (processEvents tz chk st events).counts k =
        sumD st.counts k + (newIds tz k events (bloomOf st k.day) : Int)
  | [], st => by simp [processEvents_nil, newIds]
  | e :: es, st => by
      rw [processEvents_cons,
        sumD_processEvents_exact tz chk hex k es _,
        newIds_cons, accumulate_counts, accumulate_bloomOf, hex]
      by_cases hk : eventKey tz e = k
      · have hd : eventDay tz e = k.day := by rw [← hk]; rfl
        rw [if_pos hd.symm, if_pos hd]
        by_cases hi : e.eventID ∈ bloomOf st (eventDay tz e)
        · rw [if_pos (by simpa using hi)]
          have hnot : ¬ (eventKey tz e = k ∧ e.eventID ∉ bloomOf st k.day) := by
            intro hcon
            exact hcon.2 (hd ▸ hi)
          rw [if_neg hnot]
          simp
        · rw [if_neg (by simpa using hi)]
          have hyes : eventKey tz e = k ∧ e.eventID ∉ bloomOf st k.day :=
            ⟨hk, fun hmem => hi (hd.symm ▸ hmem)⟩
          rw [if_pos hyes, hk, sumD_aadd_self]
          push_cast
          omega
      · have hkk : k ≠ eventKey tz e := fun hh => hk hh.symm
        have hif0 : (if eventKey tz e = k ∧ e.eventID ∉ bloomOf st k.day then 1 else 0) = 0 := by
          simp [hk]
        rw [hif0]
        have hcounts : sumD
            (if (decide (e.eventID ∈ bloomOf st (eventDay tz e)) : Bool) then st.counts
             else aadd st.counts (eventKey tz e) 1) k = sumD st.counts k := by
          by_cases hi : e.eventID ∈ bloomOf st (eventDay tz e)
          · rw [if_pos (by simpa using hi)]
          · rw [if_neg (by simpa using hi), sumD_aadd_ne st.counts (eventKey tz e) k 1 hkk]
        rw [hcounts]
        by_cases hd : eventDay tz e = k.day
        · rw [if_pos hd.symm, if_pos hd]
          simp
        · rw [if_neg (fun hh => hd hh.symm), if_neg hd]
          simp

theorem newIds_card (tz : Int) (k : AggregateKey) :
    ∀ (events : List ListenEvent) (seen : List String),
      (∀ e1 ∈ events, ∀ e2 ∈ events, e1.eventID = e2.eventID → e1 = e2) →
      newIds tz k events seen =
        ((idsFor tz events k).toFinset \ seen.toFinset).card
  | [], seen, _ => by simp [newIds, idsFor]
  | e :: es, seen, hinj => by
      have hinj2 : ∀ e1 ∈ es, ∀ e2 ∈ es, e1.eventID = e2.eventID → e1 = e2 :=
        fun e1 h1 e2 h2 => hinj e1 (List.mem_cons_of_mem e h1) e2 (List.mem_cons_of_mem e h2)
      rw [newIds_cons, idsFor_cons]
      by_cases hk : eventKey tz e = k
      · have hd : eventDay tz e = k.day := by rw [← hk]; rfl
        rw [if_pos hk, if_pos hd]
        by_cases hi : e.eventID ∈ seen
        · rw [if_neg (fun hcon => hcon.2 hi),
            newIds_card tz k es (e.eventID :: seen) hinj2]
          have hB : e.eventID ∈ seen.toFinset := List.mem_toFinset.mpr hi
          simp only [List.toFinset_cons]
          rw [Finset.insert_eq_self.mpr hB, Finset.insert_sdiff_of_mem _ hB]
          omega
        · rw [if_pos ⟨hk, hi⟩, newIds_card tz k es (e.eventID :: seen) hinj2]
          have hB : e.eventID ∉ seen.toFinset := fun hc => hi (List.mem_toFinset.mp hc)
          simp only [List.toFinset_cons]
          rw [Finset.sdiff_insert, Finset.insert_sdiff_of_not_mem _ hB,
            card_insert_eq_card_erase_succ]
          omega
      · rw [if_neg hk, if_neg (fun hcon : eventKey tz e = k ∧ _ => hk hcon.1)]
        by_cases hd : eventDay tz e = k.day
        · rw [if_pos hd, newIds_card tz k es (e.eventID :: seen) hinj2]
          have hS : e.eventID ∉ (idsFor tz es k).toFinset := by
            intro hc
            rcases List.mem_map.mp (List.mem_toFinset.mp hc) with ⟨e2, hm2, hid⟩
            have hm2es : e2 ∈ es := List.mem_of_mem_filter hm2
            have hkey2 : eventKey tz e2 = k := by
              have := List.of_mem_filter hm2
              simpa using this
            have he2 : e2 = e :=
              hinj e2 (List.mem_cons_of_mem e hm2es) e (List.mem_cons_self e es) hid
            exact hk (he2 ▸ hkey2)
          have hSB : (idsFor tz es k).toFinset \ (insert e.eventID seen.toFinset)
              = (idsFor tz es k).toFinset \ seen.toFinset := by
            ext x
            simp only [Finset.mem_sdiff, Finset.mem_insert]
            constructor
            · rintro ⟨hx, hnx⟩
              exact ⟨hx, fun hc => hnx (Or.inr hc)⟩
            · rintro ⟨hx, hnx⟩
              refine ⟨hx, ?_⟩
              rintro (he | hc)
              · exact hS (he ▸ hx)
              · exact hnx hc
          simp only [List.toFinset_cons]
          rw [hSB]
          omega
        · rw [if_neg hd, newIds_card tz k es seen hinj2]
          omega

theorem processEvents_allDup (tz : Int) (chk : List String → String → Bool)
    (hnfn : ∀ (s : List String) (i : String), i ∈ s → chk s i = true) :
    ∀ (events : List ListenEvent) (st : AggState),
      (∀ e ∈ events, e.eventID ∈ bloomOf st (eventDay tz e)) →
      (processEvents tz chk st events).counts = st.counts
  | [], _, _ => rfl
  | e :: es, st, hall => by
      rw [processEvents_cons]
      have hmem : e.eventID ∈ bloomOf st (eventDay tz e) :=
        hall e (List.mem_cons_self e es)
      have hchk : chk (bloomOf st (eventDay tz e)) e.eventID = true := hnfn _ _ hmem
      have hcounts : (accumulate tz chk st e 0).counts = st.counts := by
        rw [accumulate_counts, hchk, if_pos rfl]
      have hall2 : ∀ e2 ∈ es,
          e2.eventID ∈ bloomOf (accumulate tz chk st e 0) (eventDay tz e2) := by
        intro e2 hm
        rw [accumulate_bloomOf]
        by_cases hd : eventDay tz e2 = eventDay tz e
        · rw [if_pos hd]
          exact List.mem_cons_of_mem _ (hall e2 (List.mem_cons_of_mem e hm))
        · rw [if_neg hd]
          exact hall e2 (List.mem_cons_of_mem e hm)
      rw [processEvents_allDup tz chk hnfn es _ hall2, hcounts]

/-! ### Top-K computation lemmas (claims C4, C5) -/

theorem rankFrom_length : ∀ (n : Nat) (l : List (String × Int)),
    (rankFrom n l).length = l.length
  | _, [] => rfl
  | n, sc :: l => by simp [rankFrom, rankFrom_length (n + 1) l]

theorem rankFrom_map_song : ∀ (n : Nat) (l : List (String × Int)),
    (rankFrom n l).map (fun r => r.songID) = l.map Prod.fst
  | _, [] => rfl
  | n, sc :: l => by simp [rankFrom, rankFrom_map_song (n + 1) l]

theorem rankFrom_map_count : ∀ (n : Nat) (l : List (String × Int)),
    (rankFrom n l).map (fun r => r.listenCount) = l.map Prod.snd
  | _, [] => rfl
  | n, sc :: l => by simp [rankFrom, rankFrom_map_count (n + 1) l]

theorem rankFrom_map_rank : ∀ (n : Nat) (l : List (String × Int)),
    (rankFrom n l).map (fun r => r.rank) = List.range' n l.length
  | _, [] => rfl
  | n, sc :: l => by simp [rankFrom, rankFrom_map_rank (n + 1) l, List.range']

theorem mem_rankFrom : ∀ (n : Nat) (l : List (String × Int)) (r : TopKResult),
    r ∈ rankFrom n l → (r.songID, r.listenCount) ∈ l
  | _, [], _, h => absurd h (List.not_mem_nil _)
  | n, sc :: l, r, h => by
      rcases List.mem_cons.mp h with h | h
      · subst h
        simp
      · exact List.mem_cons_of_mem _ (mem_rankFrom (n + 1) l r h)

theorem agetI_foldl_aadd :
    ∀ (rows : List (String × Int)) (m : List (String × Int)) (s : String),
      agetI (rows.foldl (fun m r => aadd m r.1 r.2) m) s = agetI m s + sumD rows s
  | [], m, s => by simp [sumD_nil]
  | r :: rows, m, s => by
      have hh : (r :: rows).foldl (fun m r => aadd m r.1 r.2) m =
          rows.foldl (fun m r => aadd m r.1 r.2) (aadd m r.1 r.2) := rfl
      rw [hh, agetI_foldl_aadd rows _ s, sumD_cons]
      by_cases h : r.1 = s
      · subst h
        rw [agetI_aadd_self]
        simp
        omega
      · rw [agetI_aadd_ne m r.1 s r.2 (fun hh2 => h hh2.symm)]
        simp [h]

theorem agetI_foldl_days (store : List (AggregateKey × Int)) (u : String) :
    ∀ (dl : List String) (m : List (String × Int)) (s : String),
      agetI (dl.foldl (fun m d => (rowsFor store u d).foldl (fun m r => aadd m r.1 r.2) m) m) s
        = agetI m s + (dl.map (fun d => sumD (rowsFor store u d) s)).sum
  | [], m, s => by simp
  | d :: dl, m, s => by
      have hh : (d :: dl).foldl
            (fun m d => (rowsFor store u d).foldl (fun m r => aadd m r.1 r.2) m) m
          = dl.foldl (fun m d => (rowsFor store u d).foldl (fun m r => aadd m r.1 r.2) m)
              ((rowsFor store u d).foldl (fun m r => aadd m r.1 r.2) m) := rfl
      rw [hh, agetI_foldl_days store u dl _ s, agetI_foldl_aadd]
      simp
      omega

theorem agetI_nil_zero {κ : Type} [DecidableEq κ] (k : κ) :
    agetI ([] : List (κ × Int)) k = 0 := rfl

theorem sumD_rowsFor_zero (u d s : String) :
    ∀ (store : List (AggregateKey × Int)),
      ({ userID := u, day := d, songID := s } : AggregateKey) ∉ store.map Prod.fst →
      sumD (rowsFor store u d) s = 0
  | [], _ => rfl
  | kv :: store, hnm => by
      have hnm2 : ({ userID := u, day := d, songID := s } : AggregateKey) ∉
          store.map Prod.fst := by
        intro hc
        exact hnm (by simp [hc])
      have hne : kv.1 ≠ { userID := u, day := d, songID := s } := by
        intro he
        exact hnm (by simp [he])
      by_cases hp : kv.1.userID = u ∧ kv.1.day = d
      · have hs : kv.1.songID ≠ s := by
          intro hs
          apply hne
          have hself : kv.1 =
              { userID := kv.1.userID, day := kv.1.day, songID := kv.1.songID } := rfl
          rw [hself, hp.1, hp.2, hs]
        have hrows : rowsFor (kv :: store) u d =
            (kv.1.songID, kv.2) :: rowsFor store u d := by
          simp [rowsFor, List.filter_cons, hp]
        rw [hrows, sumD_cons, if_neg hs, sumD_rowsFor_zero u d s store hnm2]
        omega
      · have hrows : rowsFor (kv :: store) u d = rowsFor store u d := by
          simp [rowsFor, List.filter_cons, hp]
        rw [hrows, sumD_rowsFor_zero u d s store hnm2]

theorem sumD_rowsFor (u d s : String) :
    ∀ (store : List (AggregateKey × Int)),
      (store.map Prod.fst).Nodup →
      sumD (rowsFor store u d) s = agetI store ({ userID := u, day := d, songID := s }) 
  | [], _ => rfl
  | kv :: store, hnd => by
      rw [List.map_cons, List.nodup_cons] at hnd
      by_cases hk : kv.1 = { userID := u, day := d, songID := s }
      · have hp : kv.1.userID = u ∧ kv.1.day = d := by rw [hk]; exact ⟨rfl, rfl⟩
        have hs : kv.1.songID = s := by rw [hk]
        have hrows : rowsFor (kv :: store) u d =
            (kv.1.songID, kv.2) :: rowsFor store u d := by
          simp [rowsFor, List.filter_cons, hp]
        have hnm : ({ userID := u, day := d, songID := s } : AggregateKey) ∉
            store.map Prod.fst := hk ▸ hnd.1
        rw [hrows, sumD_cons, if_pos hs, sumD_rowsFor_zero u d s store hnm]
        have hag : agetI (kv :: store) { userID := u, day := d, songID := s } = kv.2 := by
          cases kv
          simp at hk
          simp [agetI, aget, hk]
        rw [hag]
        omega
      · have hag : agetI (kv :: store) { userID := u, day := d, songID := s }
            = agetI store { userID := u, day := d, songID := s } := by
          cases kv
          simp [agetI, aget, hk]
        rw [hag, ← sumD_rowsFor u d s store hnd.2]
        by_cases hp : kv.1.userID = u ∧ kv.1.day = d
        · have hs : kv.1.songID ≠ s := by
            intro hs
            apply hk
            have hself : kv.1 =
                { userID := kv.1.userID, day := kv.1.day, songID := kv.1.songID } := rfl
            rw [hself, hp.1, hp.2, hs]
          have hrows : rowsFor (kv :: store) u d =
              (kv.1.songID, kv.2) :: rowsFor store u d := by
            simp [rowsFor, List.filter_cons, hp]
          rw [hrows, sumD_cons, if_neg hs]
          omega
        · have hrows : rowsFor (kv :: store) u d = rowsFor store u d := by
            simp [rowsFor, List.filter_cons, hp]
          rw [hrows]

theorem agetI_sumCounts (store : List (AggregateKey × Int)) (u : String)
    (dl : List String) (s : String) (hnd : (store.map Prod.fst).Nodup) :
    agetI (sumCounts store u dl) s =
      (dl.map (fun d => agetI store ({ userID := u, day := d, songID := s }))).sum := by
  unfold sumCounts
  rw [agetI_foldl_days store u dl [] s, agetI_nil_zero]
  have hmap : dl.map (fun d => sumD (rowsFor store u d) s)
      = dl.map (fun d => agetI store ({ userID := u, day := d, songID := s })) :=
    List.map_congr_left (fun d _ => sumD_rowsFor u d s store hnd)
  rw [hmap]
  omega

theorem nodupKeys_foldl_aadd :
    ∀ (rows : List (String × Int)) (m : List (String × Int)),
      (m.map Prod.fst).Nodup →
      ((rows.foldl (fun m r => aadd m r.1 r.2) m).map Prod.fst).Nodup
  | [], m, h => h
  | r :: rows, m, h =>
      nodupKeys_foldl_aadd rows (aadd m r.1 r.2) (nodupKeys_aadd m r.1 r.2 h)

theorem nodupKeys_sumCounts (store : List (AggregateKey × Int)) (u : String) :
    ∀ (dl : List String) (m : List (String × Int)),
      (m.map Prod.fst).Nodup →
      ((dl.foldl (fun m d => (rowsFor store u d).foldl (fun m r => aadd m r.1 r.2) m) m).map
        Prod.fst).Nodup
  | [], m, h => h
  | d :: dl, m, h =>
      nodupKeys_sumCounts store u dl _ (nodupKeys_foldl_aadd (rowsFor store u d) m h)

theorem sorted_topkSort (entries : List (String × Int)) :
    List.Sorted cntGe (List.insertionSort cntGe entries) :=
  List.sorted_insertionSort cntGe entries

theorem perm_topkSort (entries : List (String × Int)) :
    (List.insertionSort cntGe entries).Perm entries :=
  List.perm_insertionSort cntGe entries

theorem sorted_take_drop_le (l : List (String × Int))
    (h : List.Sorted cntGe l) (k : Nat) :
    ∀ x ∈ l.take k, ∀ y ∈ l.drop k, y.2 ≤ x.2 := by
  intro x hx y hy
  have happ : List.Pairwise cntGe (l.take k ++ l.drop k) := by
    rw [List.take_append_drop]
    exact h
  exact (List.pairwise_append.mp happ).2.2 x hx y hy

theorem snds_sorted (l : List (String × Int)) (h : List.Sorted cntGe l) :
    List.Sorted (fun a b : Int => b ≤ a) (l.map Prod.snd) :=
  List.pairwise_map.mpr h

theorem sortedSnds_eq (e1 e2 : List (String × Int)) (hp : e1.Perm e2) :
    (List.insertionSort cntGe e1).map Prod.snd =
      (List.insertionSort cntGe e2).map Prod.snd := by
  have p12 : (List.insertionSort cntGe e1).Perm (List.insertionSort cntGe e2) :=
    (perm_topkSort e1).trans (hp.trans (perm_topkSort e2).symm)
  haveI : IsAntisymm Int (fun a b : Int => b ≤ a) :=
    ⟨fun _ _ h1 h2 => le_antisymm h2 h1⟩
  exact List.eq_of_perm_of_sorted (p12.map Prod.snd)
    (snds_sorted _ (sorted_topkSort e1)) (snds_sorted _ (sorted_topkSort e2))

theorem topkSort_eq_of_distinct (e1 e2 : List (String × Int)) (hp : e1.Perm e2)
    (hnd : (e2.map Prod.snd).Nodup) :
    List.insertionSort cntGe e1 = List.insertionSort cntGe e2 := by
  have p12 : (List.insertionSort cntGe e1).Perm (List.insertionSort cntGe e2) :=
    (perm_topkSort e1).trans (hp.trans (perm_topkSort e2).symm)
  have hnd2 : ((List.insertionSort cntGe e2).map Prod.snd).Nodup :=
    (((perm_topkSort e2).map Prod.snd).nodup_iff).mpr hnd
  have hnd1 : ((List.insertionSort cntGe e1).map Prod.snd).Nodup :=
    ((p12.map Prod.snd).nodup_iff).mpr hnd2
  have hstrict : ∀ (l : List (String × Int)), List.Sorted cntGe l →
      (l.map Prod.snd).Nodup →
      List.Pairwise (fun a b : String × Int => b.2 < a.2) l := by
    intro l hs hn
    have hne : List.Pairwise (fun a b : String × Int => a.2 ≠ b.2) l :=
      List.pairwise_map.mp hn
    exact (hs.and hne).imp (fun hab => lt_of_le_of_ne hab.1 (Ne.symm hab.2))
  haveI : IsAntisymm (String × Int) (fun a b : String × Int => b.2 < a.2) :=
    ⟨fun _ _ h1 h2 => absurd (lt_trans h1 h2) (lt_irrefl _)⟩
  exact List.eq_of_perm_of_sorted p12
    (hstrict _ (sorted_topkSort e1) hnd1) (hstrict _ (sorted_topkSort e2) hnd2)

theorem mem_of_aget {κ β : Type} [DecidableEq κ] :
    ∀ (m : List (κ × β)) (k : κ) (v : β), aget m k = some v → (k, v) ∈ m
  | [], _, _, h => by simp [aget] at h
  | (k0, v0) :: m, k, v, h => by
      by_cases h0 : k0 = k
      · subst h0
        simp [aget] at h
        exact List.mem_cons.mpr (Or.inl (by rw [h]))
      · simp [aget, h0] at h
        exact List.mem_cons_of_mem _ (mem_of_aget m k v h)

theorem agetI_nonneg (m : List (AggregateKey × Int)) (k : AggregateKey)
    (hm : countsNonneg m) : 0 ≤ agetI m k := by
  unfold agetI
  cases haget : aget m k with
  | none => simp
  | some v =>
      simp
      exact hm (k, v) (mem_of_aget m k v haget)

theorem mem_aput {κ β : Type} [DecidableEq κ] :
    ∀ (m : List (κ × β)) (k : κ) (v : β) (x : κ × β),
      x ∈ aput m k v → x ∈ m ∨ x = (k, v)
  | [], k, v, x, h => by
      simp [aput] at h
      exact Or.inr h
  | (k0, v0) :: m, k, v, x, h => by
      by_cases h0 : k0 = k
      · subst h0
        simp [aput] at h
        rcases h with h | h
        · exact Or.inr (by rw [h])
        · exact Or.inl (List.mem_cons_of_mem _ h)
      · simp only [aput, if_neg h0, List.mem_cons] at h
        rcases h with h | h
        · exact Or.inl (by simp [h])
        · rcases mem_aput m k v x h with h2 | h2
          · exact Or.inl (List.mem_cons_of_mem _ h2)
          · exact Or.inr h2

theorem countsNonneg_aadd (m : List (AggregateKey × Int)) (k : AggregateKey)
    (d : Int) (hm : countsNonneg m) (hd : 0 ≤ d) : countsNonneg (aadd m k d) := by
  intro kv hkv
  rcases mem_aput m k _ kv hkv with h | h
  · exact hm kv h
  · rw [h]
    have := agetI_nonneg m k hm
    simp
    omega

/-! ### Claim theorems -/

/-- C2 (code evaluation at the failing input): when the Cassandra write of
the single drained delta fails during flush, the delta is discarded — the
accumulator was already reset and the failed key is never re-merged — the
counter store is left unchanged, and the Kafka offset of the drained batch
(7) is committed anyway.  The claim (and the code's own comment "Commit
offset AFTER successful Cassandra write" and the README's "offset committed
after successful flush") requires the delta to be retried on the next flush
cycle and the commit point not to advance. -/
theorem C2_flush_failure_behavior :
    (flush (fun _ => false) exFailState).counts = [] ∧
    (flush (fun _ => false) exFailState).store = [] ∧
    (flush (fun _ => false) exFailState).committed = some 7 := by
  decide

/-- C8 counterexample: the aggregator derives the day bucket with
time.Unix(t, 0).Format, which renders the timestamp in the process's local
time zone, not UTC.  For the event at the epoch instant, a process running
at zone offset -3600 (UTC-1) buckets it as "1969-12-31", while the UTC day
containing the timestamp is "1970-01-01"; so an event is not always
credited to the UTC calendar day of its timestamp. -/
theorem C8_localzone_counterexample :
    eventDay (-3600) evEpoch = "1969-12-31" ∧
    formatDay 0 evEpoch.listenedAt = "1970-01-01" ∧
    eventDay (-3600) evEpoch ≠ formatDay 0 evEpoch.listenedAt := by
  decide

/-- C8 amended: the day bucket is a pure function of the event's own
listened_at timestamp and the process's fixed zone offset — processing time
is not an input at all — and accumulate either skips the event or bumps
exactly the key built from that day; with a UTC process zone (offset 0,
formatDay 0) the bucket is the UTC calendar day of the timestamp, as the
claim states. -/
theorem C8_day_bucket_amended (tz : Int) (chk : List String → String → Bool)
    (st : AggState) (e : ListenEvent) (off : Int) :
    (accumulate tz chk st e off).counts = st.counts ∨
    (accumulate tz chk st e off).counts =
      aadd st.counts
        { userID := e.userID, day := formatDay tz e.listenedAt,
          songID := e.songID } 1 := by
  rw [accumulate_counts]
  by_cases h : chk (bloomOf st (eventDay tz e)) e.eventID
  · left
    rw [if_pos h]
  · right
    rw [if_neg h]
    rfl

/-- C10: when a fetched message fails JSON unmarshaling the message loop
logs the error and commits that message's offset immediately, outside the
flush protocol: the commit point advances to the malformed message's offset
while the pending in-memory deltas and the counter store are untouched, so
the commit point moves past offsets whose counted events are not yet
durably applied. -/
theorem C10_malformed_commit (tz : Int) (chk : List String → String → Bool)
    (st : AggState) (off : Int) (hpending : st.counts ≠ []) :
    (processMessage tz chk st (.malformed off)).committed = some off ∧
    (processMessage tz chk st (.malformed off)).counts = st.counts ∧
    (processMessage tz chk st (.malformed off)).store = st.store :=
  ⟨rfl, rfl, rfl⟩

theorem C10_malformed_commit_witness :
    exMonState.counts ≠ [] ∧
    ((processMessage 0 chkEx exMonState (.malformed 11)).committed = some 11 ∧
     (processMessage 0 chkEx exMonState (.malformed 11)).counts = exMonState.counts ∧
     (processMessage 0 chkEx exMonState (.malformed 11)).store = exMonState.store) :=
  ⟨by decide, C10_malformed_commit 0 chkEx exMonState 11 (by decide)⟩

/-- C9: for a fixed key the persisted count never decreases across any
aggregator step — consuming a message (well-formed or malformed) leaves the
store untouched, and a flush only applies the drained deltas as additions;
since every accumulator delta is nonnegative (an invariant every step
preserves, counts being built by increments of 1 from empty), no step of
the pipeline decreases a stored count. -/
theorem C9_store_monotone (tz : Int) (chk : List String → String → Bool)
    (st st' : AggState) (k : AggregateKey) (hstep : AggStep tz chk st st')
    (hnn : countsNonneg st.counts) :
    agetI st.store k ≤ agetI st'.store k ∧ countsNonneg st'.counts := by
  cases hstep with
  | msg m =>
      cases m with
      | malformed off => exact ⟨le_refl _, hnn⟩
      | event e off =>
          refine ⟨by rw [processMessage, accumulate_store], ?_⟩
          show countsNonneg (accumulate tz chk st e off).counts
          rw [accumulate_counts]
          by_cases h : chk (bloomOf st (eventDay tz e)) e.eventID
          · rw [if_pos h]
            exact hnn
          · rw [if_neg h]
            exact countsNonneg_aadd st.counts (eventKey tz e) 1 hnn (by omega)
  | flushStep wOk =>
      unfold flush
      split
      · exact ⟨le_refl _, hnn⟩
      · refine ⟨?_, ?_⟩
        · exact agetI_applyDeltas_ge wOk st.counts st.store k hnn
        · intro kv hkv
          simp at hkv

theorem C9_store_monotone_witness :
    countsNonneg exMonState.counts ∧
    (agetI exMonState.store exKey ≤
        agetI (flush (fun _ => true) exMonState).store exKey ∧
     countsNonneg (flush (fun _ => true) exMonState).counts) :=
  ⟨by decide,
    C9_store_monotone 0 chkEx exMonState (flush (fun _ => true) exMonState) exKey
      (AggStep.flushStep exMonState (fun _ => true)) (by decide)⟩

/-- C3: replaying an already-flushed batch is idempotent for the persisted
counts.  If the accumulator is empty and every event id of the batch is
already in its day's dedup bloom filter (the crash-then-restart-before-
offset-commit scenario), then re-running accumulate over the whole batch
followed by a flush leaves the counter store exactly unchanged: each replayed
event is skipped as a duplicate, so the flush has no delta to apply. -/
theorem C3_replay_idempotent (tz : Int) (chk : List String → String → Bool)
    (wOk : AggregateKey → Bool) (st : AggState) (events : List ListenEvent)
    (hnfn : ∀ (s : List String) (i : String), i ∈ s → chk s i = true)
    (hflushed : st.counts = [])
    (hall : ∀ e ∈ events, e.eventID ∈ bloomOf st (eventDay tz e)) :
    (flush wOk (processEvents tz chk st events)).store = st.store := by
  have hc : (processEvents tz chk st events).counts = [] := by
    rw [processEvents_allDup tz chk hnfn events st hall, hflushed]
  rw [flush_store_of_counts_nil wOk _ hc, processEvents_store]

theorem C3_replay_idempotent_witness :
    exReplayState.counts = [] ∧
    (∀ e ∈ exEvents, e.eventID ∈ bloomOf exReplayState (eventDay 0 e)) ∧
    (flush (fun _ => true) (processEvents 0 chkEx exReplayState exEvents)).store
      = exReplayState.store :=
  ⟨rfl, by decide,
    C3_replay_idempotent 0 chkEx (fun _ => true) exReplayState exEvents
      (fun s i h => by simp [chkEx, h]) rfl (by decide)⟩

/-- C1: starting from a fresh state, accumulating a delivered batch
(duplicates included) and flushing with all writes succeeding, the persisted
increment for every (user, day, item) key is at most the number of distinct
event_ids the batch delivers for that key, for every bloom membership test
with no false negatives — duplicates never inflate the persisted count; and
with an exact membership test (no false positives) it equals that number
exactly, so the only possible deviation is an under-count caused by bloom
false positives. -/
theorem C1_dedup_no_overcount (tz : Int) (chk : List String → String → Bool)
    (events : List ListenEvent) (k : AggregateKey)
    (hnfn : ∀ (s : List String) (i : String), i ∈ s → chk s i = true)
    (hinj : ∀ e1 ∈ events, ∀ e2 ∈ events, e1.eventID = e2.eventID → e1 = e2) :
    agetI (flush (fun _ => true) (processEvents tz chk initState events)).store k
      ≤ ((idsFor tz events k).toFinset.card : Int) ∧
    ((∀ (s : List String) (i : String), chk s i = decide (i ∈ s)) →
      agetI (flush (fun _ => true) (processEvents tz chk initState events)).store k
        = ((idsFor tz events k).toFinset.card : Int)) := by
  have hstore :
      agetI (flush (fun _ => true) (processEvents tz chk initState events)).store k
        = sumD (processEvents tz chk initState events).counts k := by
    rw [flush_store_allOk, processEvents_store]
    have h0 : agetI initState.store k = 0 := rfl
    rw [h0]
    omega
  have hcard : (newIds tz k events (bloomOf initState k.day) : Int)
      = ((idsFor tz events k).toFinset.card : Int) := by
    have hb : bloomOf initState k.day = [] := rfl
    rw [hb, newIds_card tz k events [] hinj]
    simp
  have h0c : sumD initState.counts k = 0 := rfl
  constructor
  · rw [hstore]
    have hle := sumD_processEvents_le tz chk hnfn k events initState
    rw [hcard, h0c] at hle
    omega
  · intro hex
    rw [hstore]
    have heq := sumD_processEvents_exact tz chk hex k events initState
    rw [hcard, h0c] at heq
    omega

theorem C1_dedup_no_overcount_witness :
    (∀ e1 ∈ exEvents, ∀ e2 ∈ exEvents, e1.eventID = e2.eventID → e1 = e2) ∧
    (agetI (flush (fun _ => true) (processEvents 0 chkEx initState exEvents)).store exKey
        ≤ ((idsFor 0 exEvents exKey).toFinset.card : Int) ∧
     ((∀ (s : List String) (i : String), chkEx s i = decide (i ∈ s)) →
       agetI (flush (fun _ => true) (processEvents 0 chkEx initState exEvents)).store exKey
         = ((idsFor 0 exEvents exKey).toFinset.card : Int))) :=
  ⟨by decide,
    C1_dedup_no_overcount 0 chkEx exEvents exKey
      (fun s i h => by simp [chkEx, h]) (by decide)⟩

theorem getQueryInt_some (s : String) (n dflt : Int) (h : goAtoi s = some n) :
    getQueryInt s dflt = n := by
  have hne : s ≠ "" := by
    intro he
    rw [he] at h
    simp [goAtoi] at h
  unfold getQueryInt
  rw [if_neg hne, h]

theorem getQueryInt_none (s : String) (dflt : Int) (h : goAtoi s = none) :
    getQueryInt s dflt = dflt := by
  unfold getQueryInt
  by_cases he : s = ""
  · rw [if_pos he]
  · rw [if_neg he, h]

/-- C7 counterexample: the malformed, non-numeric days value "abc" is not
rejected with 400 — strconv.Atoi fails, getQueryInt silently substitutes the
default 7, and the request is accepted as days = 7, k = 10 (the claim says
it must be rejected, never replaced by defaults); likewise the empty user id
of /users//topk passes path validation instead of being rejected. -/
theorem C7_malformed_counterexample :
    validateParams "abc" "" = TopKOutcome.ok 7 10 ∧
    (∀ msg : String, validateParams "abc" "" ≠ TopKOutcome.badRequest msg) ∧
    parsePath "/users//topk" = some "" := by
  refine ⟨by decide, ?_, by decide⟩
  intro msg h
  rw [show validateParams "abc" "" = TopKOutcome.ok 7 10 from by decide] at h
  exact TopKOutcome.noConfusion h

/-- C7 amended: a days or k value that parses as an integer outside the
configured bounds (days 1-30, k 1-100) is rejected with the 400 message of
the code and never clamped; but a malformed, non-numeric value is silently
replaced by the default (days 7, k 10) and then bound-checked — behaving
exactly like an absent parameter — and the user_id path segment is not
validated. -/
theorem C7_validation_amended (sd sk sm sd2 sk2 : String) (n n2 kn : Int)
    (hd : goAtoi sd = some n) (hout : n < 1 ∨ 30 < n)
    (hm : goAtoi sm = none)
    (hd2 : goAtoi sd2 = some n2) (hin : 1 ≤ n2 ∧ n2 ≤ 30)
    (hk2 : goAtoi sk2 = some kn) (hkout : kn < 1 ∨ 100 < kn) :
    validateParams sd sk = TopKOutcome.badRequest "days must be 1-30" ∧
    getQueryInt sm 7 = 7 ∧
    validateParams sm sk = validateParams "" sk ∧
    validateParams sd2 sk2 = TopKOutcome.badRequest "k must be 1-100" := by
  refine ⟨?_, getQueryInt_none sm 7 hm, ?_, ?_⟩
  · unfold validateParams
    rw [getQueryInt_some sd n 7 hd, if_pos hout]
  · unfold validateParams
    rw [getQueryInt_none sm 7 hm]
    rfl
  · unfold validateParams
    rw [getQueryInt_some sd2 n2 7 hd2, getQueryInt_some sk2 kn 10 hk2]
    have hnout : ¬(n2 < 1 ∨ 30 < n2) := by omega
    rw [if_neg hnout, if_pos hkout]

theorem C7_validation_amended_witness :
    goAtoi "31" = some 31 ∧ ((31 : Int) < 1 ∨ 30 < (31 : Int)) ∧
    goAtoi "abc" = none ∧
    goAtoi "7" = some 7 ∧ ((1 : Int) ≤ 7 ∧ (7 : Int) ≤ 30) ∧
    goAtoi "101" = some 101 ∧ ((101 : Int) < 1 ∨ 100 < (101 : Int)) ∧
    (validateParams "31" "" = TopKOutcome.badRequest "days must be 1-30" ∧
     getQueryInt "abc" 7 = 7 ∧
     validateParams "abc" "" = validateParams "" "" ∧
     validateParams "7" "101" = TopKOutcome.badRequest "k must be 1-100") :=
  ⟨by decide, by decide, by decide, by decide, by decide, by decide, by decide,
    C7_validation_amended "31" "" "abc" "7" "101" 31 7 101
      (by decide) (by decide) (by decide) (by decide) (by decide)
      (by decide) (by decide)⟩

/-- C6 counterexample: a cold-cache request returns cached = false and
populates the entry, and the identical request served from the cache is
marked as a hit only by the X-Cache header — the replayed stored body still
carries cached = false, not cached = true as the claim states, because the
handler caches the serialized miss response verbatim and never rewrites the
flag. -/
theorem C6_cached_flag_counterexample :
    (serveTopK exStore [] "u1" 20454 1 2).1.body.cached = false ∧
    (serveTopK exStore [] "u1" 20454 1 2).1.xcacheHit = false ∧
    (serveTopK exStore (serveTopK exStore [] "u1" 20454 1 2).2 "u1" 20454 1 2).1.xcacheHit
      = true ∧
    (serveTopK exStore (serveTopK exStore [] "u1" 20454 1 2).2 "u1" 20454 1 2).1.body.cached
      = false := by
  decide

/-- C6 amended: on a cold cache (no entry for the key, which is how a TTL
expiry manifests) the handler returns the computed body with cached = false
and X-Cache MISS and stores that body; the identical request served while
the entry is present returns the byte-identical stored body — results
identical, cached still false — distinguished only by the X-Cache HIT
header. -/
theorem C6_cache_amended (store : List (AggregateKey × Int))
    (cache : List (String × TopKResponse)) (u : String) (todayZ : Int)
    (days k : Nat)
    (hmiss : aget cache (cacheKey u days k) = none) :
    (serveTopK store cache u todayZ days k).1.xcacheHit = false ∧
    (serveTopK store cache u todayZ days k).1.body.cached = false ∧
    aget (serveTopK store cache u todayZ days k).2 (cacheKey u days k)
      = some (serveTopK store cache u todayZ days k).1.body ∧
    (serveTopK store (serveTopK store cache u todayZ days k).2 u todayZ days k).1
      = { body := (serveTopK store cache u todayZ days k).1.body,
          xcacheHit := true } := by
  have h1 : serveTopK store cache u todayZ days k =
      ({ body := { userID := u, days := days, k := k,
                   results := computeTopK store u todayZ days k, cached := false },
         xcacheHit := false },
       aput cache (cacheKey u days k)
         { userID := u, days := days, k := k,
           results := computeTopK store u todayZ days k, cached := false }) := by
    simp only [serveTopK]
    rw [hmiss]
  rw [h1]
  refine ⟨rfl, rfl, aget_aput_self cache (cacheKey u days k) _, ?_⟩
  simp only [serveTopK, aget_aput_self]

theorem C6_cache_amended_witness :
    aget ([] : List (String × TopKResponse)) (cacheKey "u1" 2 2) = none ∧
    ((serveTopK exStore2 [] "u1" 20454 2 2).1.xcacheHit = false ∧
     (serveTopK exStore2 [] "u1" 20454 2 2).1.body.cached = false ∧
     aget (serveTopK exStore2 [] "u1" 20454 2 2).2 (cacheKey "u1" 2 2)
       = some (serveTopK exStore2 [] "u1" 20454 2 2).1.body ∧
     (serveTopK exStore2 (serveTopK exStore2 [] "u1" 20454 2 2).2 "u1" 20454 2 2).1
       = { body := (serveTopK exStore2 [] "u1" 20454 2 2).1.body,
           xcacheHit := true }) :=
  ⟨rfl, C6_cache_amended exStore2 [] "u1" 20454 2 2 rfl⟩

/-- C4 counterexample: with two items of user u1 tied at count 1 on
2026-01-01 (epoch day 20454) and the enumeration the songCounts map
produces for this store, the Top-K computation returns item "b" at rank 1
ahead of item "a" at rank 2 despite equal counts — the sort.Slice less
function compares only counts and Go map iteration order is unspecified, so
ties are not broken by ascending item id as the claim states. -/
theorem C4_tiebreak_counterexample :
    sumCounts exStore "u1" (dayListFor 20454 1) = [("b", 1), ("a", 1)] ∧
    (computeTopKFrom (sumCounts exStore "u1" (dayListFor 20454 1)) 2).map
        (fun r => (r.songID, r.listenCount, r.rank))
      = [("b", 1, 1), ("a", 1, 2)] ∧
    (computeTopKFrom (sumCounts exStore "u1" (dayListFor 20454 1)) 2).map
        (fun r => r.songID)
      ≠ ["a", "b"] := by
  decide

/-- C4 amended: for every enumeration of the songCounts map (Go map
iteration order is unspecified), the Top-K computation returns a list whose
length is K truncated to the number of distinct stored items; every entry
carries the exact sum of its item's per-day counts over the N most recent
day buckets ending today, a day or item with no record contributing zero;
the counts are sorted descending with the order of equal-count items
unspecified (no tie-break); rank is assigned 1, 2, ... in result order; and
no omitted item has a sum exceeding any returned count. -/
theorem C4_topk_amended (store : List (AggregateKey × Int)) (u : String)
    (todayZ : Int) (days k : Nat) (entries : List (String × Int))
    (hperm : entries.Perm (sumCounts store u (dayListFor todayZ days)))
    (hnd : (store.map Prod.fst).Nodup) :
    (computeTopKFrom entries k).length = min k entries.length ∧
    (∀ r ∈ computeTopKFrom entries k,
      r.listenCount =
        ((dayListFor todayZ days).map
          (fun d => agetI store { userID := u, day := d, songID := r.songID })).sum) ∧
    List.Sorted (fun a b : Int => b ≤ a)
      ((computeTopKFrom entries k).map (fun r => r.listenCount)) ∧
    ((computeTopKFrom entries k).map (fun r => r.rank)
      = List.range' 1 (computeTopKFrom entries k).length) ∧
    (∀ sc ∈ entries, sc.1 ∉ (computeTopKFrom entries k).map (fun r => r.songID) →
      ∀ r ∈ computeTopKFrom entries k, sc.2 ≤ r.listenCount) := by
  have hndS : ((sumCounts store u (dayListFor todayZ days)).map Prod.fst).Nodup := by
    unfold sumCounts
    exact nodupKeys_sumCounts store u (dayListFor todayZ days) [] (by simp)
  have hlen : (computeTopKFrom entries k).length = min k entries.length := by
    unfold computeTopKFrom
    rw [rankFrom_length, List.length_take, (perm_topkSort entries).length_eq]
  refine ⟨hlen, ?_, ?_, ?_, ?_⟩
  · intro r hr
    have hmem : (r.songID, r.listenCount) ∈ List.insertionSort cntGe entries :=
      List.mem_of_mem_take
        (mem_rankFrom 1 ((List.insertionSort cntGe entries).take k) r hr)
    have hment : (r.songID, r.listenCount) ∈ entries :=
      (perm_topkSort entries).mem_iff.mp hmem
    have hmemS : (r.songID, r.listenCount) ∈ sumCounts store u (dayListFor todayZ days) :=
      hperm.mem_iff.mp hment
    have hag := agetI_of_mem_nodup _ _ _ hndS hmemS
    rw [← agetI_sumCounts store u (dayListFor todayZ days) r.songID hnd, hag]
  · unfold computeTopKFrom
    rw [rankFrom_map_count]
    exact snds_sorted _
      (List.Pairwise.sublist (List.take_sublist k _) (sorted_topkSort entries))
  · unfold computeTopKFrom
    rw [rankFrom_map_rank, rankFrom_length]
  · intro sc hsc hnotin r hr
    have hscS : sc ∈ List.insertionSort cntGe entries :=
      (perm_topkSort entries).mem_iff.mpr hsc
    have happ : sc ∈ (List.insertionSort cntGe entries).take k
        ++ (List.insertionSort cntGe entries).drop k := by
      rw [List.take_append_drop]
      exact hscS
    rcases List.mem_append.mp happ with htake | hdrop
    · exfalso
      apply hnotin
      show sc.1 ∈ (computeTopKFrom entries k).map (fun r => r.songID)
      unfold computeTopKFrom
      rw [rankFrom_map_song]
      exact List.mem_map.mpr ⟨sc, htake, rfl⟩
    · have hrtake : (r.songID, r.listenCount) ∈
          (List.insertionSort cntGe entries).take k :=
        mem_rankFrom 1 ((List.insertionSort cntGe entries).take k) r hr
      exact sorted_take_drop_le _ (sorted_topkSort entries) k _ hrtake sc hdrop

theorem C4_topk_amended_witness :
    (sumCounts exStore2 "u1" (dayListFor 20454 2)).Perm
      (sumCounts exStore2 "u1" (dayListFor 20454 2)) ∧
    (exStore2.map Prod.fst).Nodup ∧
    ((computeTopKFrom (sumCounts exStore2 "u1" (dayListFor 20454 2)) 2).length
        = min 2 (sumCounts exStore2 "u1" (dayListFor 20454 2)).length ∧
     (∀ r ∈ computeTopKFrom (sumCounts exStore2 "u1" (dayListFor 20454 2)) 2,
       r.listenCount =
         ((dayListFor 20454 2).map
           (fun d => agetI exStore2 { userID := "u1", day := d, songID := r.songID })).sum) ∧
     List.Sorted (fun a b : Int => b ≤ a)
       ((computeTopKFrom (sumCounts exStore2 "u1" (dayListFor 20454 2)) 2).map
         (fun r => r.listenCount)) ∧
     ((computeTopKFrom (sumCounts exStore2 "u1" (dayListFor 20454 2)) 2).map
         (fun r => r.rank)
       = List.range' 1
           (computeTopKFrom (sumCounts exStore2 "u1" (dayListFor 20454 2)) 2).length) ∧
     (∀ sc ∈ sumCounts exStore2 "u1" (dayListFor 20454 2),
       sc.1 ∉ (computeTopKFrom (sumCounts exStore2 "u1" (dayListFor 20454 2)) 2).map
           (fun r => r.songID) →
       ∀ r ∈ computeTopKFrom (sumCounts exStore2 "u1" (dayListFor 20454 2)) 2,
         sc.2 ≤ r.listenCount)) :=
  ⟨List.Perm.refl _, by decide,
    C4_topk_amended exStore2 "u1" 20454 2 2
      (sumCounts exStore2 "u1" (dayListFor 20454 2))
      (List.Perm.refl _) (by decide)⟩

/-- C5 counterexample: both orders of the two tied entries are legitimate
enumerations of the same songCounts map (each is a permutation of the map
the store produces), yet the Top-K computation returns different result
lists for them — two runs over the same stored per-day counts need not be
identical, and equal-count items are not ordered by ascending item id. -/
theorem C5_nondeterminism_counterexample :
    ([(("b" : String), (1 : Int)), ("a", 1)]).Perm
      (sumCounts exStore "u1" (dayListFor 20454 1)) ∧
    ([(("a" : String), (1 : Int)), ("b", 1)]).Perm
      (sumCounts exStore "u1" (dayListFor 20454 1)) ∧
    computeTopKFrom [(("b" : String), (1 : Int)), ("a", 1)] 2
      ≠ computeTopKFrom [(("a" : String), (1 : Int)), ("b", 1)] 2 := by
  decide

/-- C5 amended: over the same stored per-day counts the Top-K computation
is deterministic up to the arrangement of equal-count items: any two runs
(any two enumerations of the songCounts map) return the same descending
count sequence and the same rank sequence, and when all summed counts are
distinct the full result lists are identical; only the assignment of items
among tied counts can differ between runs. -/
theorem C5_determinism_amended (store : List (AggregateKey × Int)) (u : String)
    (todayZ : Int) (days k : Nat) (e1 e2 : List (String × Int))
    (h1 : e1.Perm (sumCounts store u (dayListFor todayZ days)))
    (h2 : e2.Perm (sumCounts store u (dayListFor todayZ days))) :
    (computeTopKFrom e1 k).map (fun r => r.listenCount)
      = (computeTopKFrom e2 k).map (fun r => r.listenCount) ∧
    (computeTopKFrom e1 k).map (fun r => r.rank)
      = (computeTopKFrom e2 k).map (fun r => r.rank) ∧
    (((sumCounts store u (dayListFor todayZ days)).map Prod.snd).Nodup →
      computeTopKFrom e1 k = computeTopKFrom e2 k) := by
  have hp : e1.Perm e2 := h1.trans h2.symm
  have hsnds := sortedSnds_eq e1 e2 hp
  have hlen : (List.insertionSort cntGe e1).length
      = (List.insertionSort cntGe e2).length := by
    rw [(perm_topkSort e1).length_eq, (perm_topkSort e2).length_eq, hp.length_eq]
  refine ⟨?_, ?_, ?_⟩
  · unfold computeTopKFrom
    rw [rankFrom_map_count, rankFrom_map_count, List.map_take, List.map_take, hsnds]
  · unfold computeTopKFrom
    rw [rankFrom_map_rank, rankFrom_map_rank, List.length_take, List.length_take, hlen]
  · intro hnd
    have hnd2 : (e2.map Prod.snd).Nodup := ((h2.map Prod.snd).nodup_iff).mpr hnd
    unfold computeTopKFrom
    rw [topkSort_eq_of_distinct e1 e2 hp hnd2]

theorem C5_determinism_amended_witness :
    ([(("a" : String), (7 : Int)), ("b", 3)]).Perm
      (sumCounts exStore2 "u1" (dayListFor 20454 2)) ∧
    ([(("b" : String), (3 : Int)), ("a", 7)]).Perm
      (sumCounts exStore2 "u1" (dayListFor 20454 2)) ∧
    ((computeTopKFrom [(("a" : String), (7 : Int)), ("b", 3)] 2).map
        (fun r => r.listenCount)
      = (computeTopKFrom [(("b" : String), (3 : Int)), ("a", 7)] 2).map
          (fun r => r.listenCount) ∧
     (computeTopKFrom [(("a" : String), (7 : Int)), ("b", 3)] 2).map
        (fun r => r.rank)
      = (computeTopKFrom [(("b" : String), (3 : Int)), ("a", 7)] 2).map
          (fun r => r.rank) ∧
     (((sumCounts exStore2 "u1" (dayListFor 20454 2)).map Prod.snd).Nodup →
       computeTopKFrom [(("a" : String), (7 : Int)), ("b", 3)] 2
         = computeTopKFrom [(("b" : String), (3 : Int)), ("a", 7)] 2)) :=
  ⟨by decide, by decide,
    C5_determinism_amended exStore2 "u1" 20454 2 2
      [("a", 7), ("b", 3)] [("b", 3), ("a", 7)] (by decide) (by decide)⟩
